import Mathlib

/-!
Verification of the user-store CRUD access layer (`app/cli.py`).

The store is a list of user records plus the engine's next surrogate id.
Each CLI command is embedded as a function from a store to an output and a
successor store.  The relational engine behind the access layer (the `User`
model and the database module) is not part of `app/cli.py`; its
uniqueness enforcement is modelled from the specification where noted.
-/

/-- A row of the single `User` table: surrogate id assigned by the engine,
plus the `username`, `email` and `password` columns. -/
structure UserRec where
  id : Nat
  username : String
  email : String
  password : String
deriving DecidableEq, Repr

/-- The persisted state: the rows of the `User` table in natural storage
order, and the engine's next surrogate id. -/
structure Store where
  users : List UserRec
  nextId : Nat
deriving DecidableEq, Repr

/-- What one command invocation prints (or, for an unanticipated engine
failure, the uncaught exception reaching the process boundary). -/
inductive OpOut where
  | user : UserRec → OpOut
  | users : List UserRec → OpOut
  | message : String → OpOut
  | uncaughtIntegrityError : OpOut
deriving DecidableEq, Repr

/-- `db.exec(select(User).where(User.username == username)).first()`:
first record whose username equals the argument exactly. -/
def findByUsername (s : Store) (un : String) : Option UserRec :=
  s.users.find? (fun u => u.username == un)

/-- Modelled from the spec: the engine's uniqueness constraints on the
`username` and `email` columns (declared in the `User` model, which is not
under `app/cli.py`).  An INSERT raises `IntegrityError` iff the new row's
username or email equals that of an existing row. -/
def insertConflict (s : Store) (un em : String) : Bool :=
  s.users.any (fun u => u.username == un || u.email == em)

/-- Modelled from the spec: the engine's uniqueness constraint on `email`
checked when an UPDATE is committed — violated iff a different row
(another id) already holds the new email. -/
def updateEmailConflict (s : Store) (i : Nat) (em : String) : Bool :=
  s.users.any (fun u => u.id != i && u.email == em)

/-- The store produced by `initialize`: schema dropped and recreated, one
seed record `bob` inserted, whose surrogate id is 1. -/
def seedStore : Store :=
  { users := [⟨1, "bob", "bob@mail.com", "bobpass"⟩], nextId := 2 }

/-- The `initialize` command: destroys all prior content and reseeds. -/
def init_db (_s : Store) : OpOut × Store :=
  (OpOut.message "Database Initialized", seedStore)

/-- The `get-user` command: exact-match lookup, message on absence. -/
def get_user (s : Store) (un : String) : OpOut × Store :=
  match findByUsername s un with
  | none => (OpOut.message (un ++ " not found!"), s)
  | some u => (OpOut.user u, s)

/-- The `get-all-users` command: all rows, or a message when none. -/
def get_all_users (s : Store) : OpOut × Store :=
  if s.users.isEmpty then
    (OpOut.message "No users found", s)
  else
    (OpOut.users s.users, s)

/-- The `change-email` command: look up by exact username; if absent,
report and do not write; otherwise overwrite the email field and commit.
The access layer performs no uniqueness check of its own and catches
nothing here, so an engine uniqueness violation on commit propagates
uncaught; the session context manager rolls the write back (spec: the
session is released, committed or rolled back, on every exit path). -/
def change_email (s : Store) (un newEmail : String) : OpOut × Store :=
  match findByUsername s un with
  | none => (OpOut.message (un ++ " not found! Unable to update email."), s)
  | some u =>
    if updateEmailConflict s u.id newEmail then
      (OpOut.uncaughtIntegrityError, s)
    else
      let u2 : UserRec := { u with email := newEmail }
      (OpOut.message ("Updated " ++ u2.username ++ "\x27s email to " ++ u2.email),
       { s with users := s.users.map (fun v => if v.id = u.id then u2 else v) })

/-- The `create-user` command: attempt the INSERT; on `IntegrityError`
roll back and print the generic message, else the row is appended with a
fresh surrogate id. -/
def create_user (s : Store) (un em pw : String) : OpOut × Store :=
  if insertConflict s un em then
    (OpOut.message "Username or email already taken!", s)
  else
    let nu : UserRec := ⟨s.nextId, un, em, pw⟩
    (OpOut.user nu, { users := s.users ++ [nu], nextId := s.nextId + 1 })

/-- The `delete-user` command: look up by exact username; if absent,
report; otherwise delete that row (by primary key) and commit. -/
def delete_user (s : Store) (un : String) : OpOut × Store :=
  match findByUsername s un with
  | none => (OpOut.message (un ++ " not found! Unable to delete user."), s)
  | some u =>
    (OpOut.message (un ++ " deleted"),
     { s with users := s.users.filter (fun v => v.id != u.id) })

/-- `column.contains(q)`, i.e. SQL `LIKE %q%`: `q` occurs as a contiguous
substring of the column value. -/
def strContains (hay q : String) : Bool :=
  decide (q.data <:+: hay.data)

/-- The rows selected by `search-user`: username or email contains the
query as a substring. -/
def search_matches (s : Store) (q : String) : List UserRec :=
  s.users.filter (fun u => strContains u.username q || strContains u.email q)

/-- The `search-user` command: partial match on username or email; a
no-match message (not an error) when nothing matches. -/
def search_user (s : Store) (q : String) : OpOut × Store :=
  let res := search_matches s q
  if res.isEmpty then
    (OpOut.message ("No users found matching \x27" ++ q ++ "\x27."), s)
  else
    (OpOut.users res, s)

/-- Modelled from the spec: the engine's `OFFSET o LIMIT l` slice in
natural storage order (the engine module is not under `app/cli.py`).  The
spec defines the slice for nonnegative parameters and leaves negative
values an open question, so the model is only committed to `0 ≤ l`,
`0 ≤ o`; the theorems below restrict to that domain. -/
def list_page (s : Store) (l o : Int) : List UserRec :=
  (s.users.drop o.toNat).take l.toNat

/-- The `list-users` command (argument defaults are `limit = 10`,
`offset = 0`): the paginated slice, or a message when it is empty. -/
def list_users (s : Store) (l o : Int) : OpOut × Store :=
  let res := list_page s l o
  if res.isEmpty then
    (OpOut.message "No users found.", s)
  else
    (OpOut.users res, s)

/-- One CLI invocation of a state-affecting command. -/
inductive Cmd where
  | reinit : Cmd
  | create (un em pw : String) : Cmd
  | changeEmail (un em : String) : Cmd
  | delete (un : String) : Cmd
deriving DecidableEq, Repr

/-- The store after one command invocation (the printed output dropped). -/
def step (s : Store) : Cmd → Store
  | Cmd.reinit => (init_db s).2
  | Cmd.create un em pw => (create_user s un em pw).2
  | Cmd.changeEmail un em => (change_email s un em).2
  | Cmd.delete un => (delete_user s un).2

/-- The store after a sequence of command invocations from `s`. -/
def runFrom (s : Store) (cs : List Cmd) : Store :=
  cs.foldl step s

/-- The store reached from an initialized store by a command sequence. -/
def run (cs : List Cmd) : Store :=
  runFrom seedStore cs

/-- Two rows differ in id, username and email. -/
def RecDistinct (a b : UserRec) : Prop :=
  a.id ≠ b.id ∧ a.username ≠ b.username ∧ a.email ≠ b.email

instance : DecidableRel RecDistinct := fun a b =>
  decidable_of_iff (a.id ≠ b.id ∧ a.username ≠ b.username ∧ a.email ≠ b.email) Iff.rfl

/-- Store well-formedness: rows pairwise distinct in id, username and
email, and every id below the engine's next surrogate id. -/
def StoreInv (s : Store) : Prop :=
  s.users.Pairwise RecDistinct ∧ ∀ u ∈ s.users, u.id < s.nextId

instance (s : Store) : Decidable (StoreInv s) := by
  unfold StoreInv
  infer_instance

theorem recDistinct_symm : Symmetric RecDistinct := by
  intro a b h
  exact ⟨h.1.symm, h.2.1.symm, h.2.2.symm⟩

theorem storeInv_seed : StoreInv seedStore := by decide

theorem eq_of_mem_of_id_eq {s : Store} (hp : s.users.Pairwise RecDistinct)
    {u v : UserRec} (hu : u ∈ s.users) (hv : v ∈ s.users) (hid : u.id = v.id) : u = v := by
  by_cases heq : u = v
  · exact heq
  · exact absurd hid (hp.forall recDistinct_symm hu hv heq).1

theorem insertConflict_eq_false {s : Store} {un em : String}
    (h : insertConflict s un em = false) :
    ∀ u ∈ s.users, u.username ≠ un ∧ u.email ≠ em := by
  intro u hu
  have := List.any_eq_false.mp h u hu
  simpa [not_or] using this

theorem updateEmailConflict_eq_false {s : Store} {i : Nat} {em : String}
    (h : updateEmailConflict s i em = false) :
    ∀ v ∈ s.users, v.id ≠ i → v.email ≠ em := by
  intro v hv hvid
  have := List.any_eq_false.mp h v hv
  simpa [hvid] using this

theorem storeInv_create (s : Store) (un em pw : String) (h : StoreInv s) :
    StoreInv (create_user s un em pw).2 := by
  obtain ⟨hp, hid⟩ := h
  cases hc : insertConflict s un em with
  | true => simpa [create_user, hc] using ⟨hp, hid⟩
  | false =>
    have hfresh := insertConflict_eq_false hc
    have hpost : (create_user s un em pw).2 =
        { users := s.users ++ [⟨s.nextId, un, em, pw⟩], nextId := s.nextId + 1 } := by
      simp [create_user, hc]
    rw [hpost]
    constructor
    · rw [List.pairwise_append]
      refine ⟨hp, List.pairwise_singleton _ _, ?_⟩
      intro a ha b hb
      simp only [List.mem_singleton] at hb
      subst hb
      exact ⟨Nat.ne_of_lt (hid a ha), (hfresh a ha).1, (hfresh a ha).2⟩
    · intro w hw
      simp only [List.mem_append, List.mem_singleton] at hw
      rcases hw with hw | hw
      · exact Nat.lt_succ_of_lt (hid w hw)
      · subst hw
        exact Nat.lt_succ_self _

theorem storeInv_change (s : Store) (un em : String) (h : StoreInv s) :
    StoreInv (change_email s un em).2 := by
  obtain ⟨hp, hid⟩ := h
  cases hf : findByUsername s un with
  | none => simpa [change_email, hf] using ⟨hp, hid⟩
  | some u =>
    cases hc : updateEmailConflict s u.id em with
    | true => simpa [change_email, hf, hc] using ⟨hp, hid⟩
    | false =>
      have humem : u ∈ s.users := List.mem_of_find?_eq_some hf
      have hnc := updateEmailConflict_eq_false hc
      have hpost : (change_email s un em).2 =
          { users := s.users.map (fun v => if v.id = u.id then { u with email := em } else v),
            nextId := s.nextId } := by
        simp [change_email, hf, hc]
      rw [hpost]
      constructor
      · rw [List.pairwise_map]
        refine hp.imp_of_mem ?_
        intro a b ha hb hab
        by_cases haid : a.id = u.id
        · have hau : a = u := eq_of_mem_of_id_eq hp ha humem haid
          by_cases hbid : b.id = u.id
          · exact absurd (haid.trans hbid.symm) hab.1
          · rw [if_pos haid, if_neg hbid]
            exact ⟨hau ▸ hab.1, hau ▸ hab.2.1, fun hcon => hnc b hb hbid hcon.symm⟩
        · by_cases hbid : b.id = u.id
          · have hbu : b = u := eq_of_mem_of_id_eq hp hb humem hbid
            rw [if_neg haid, if_pos hbid]
            exact ⟨hbu ▸ hab.1, hbu ▸ hab.2.1, hnc a ha haid⟩
          · rw [if_neg haid, if_neg hbid]
            exact hab
      · intro w hw
        simp only [List.mem_map] at hw
        obtain ⟨v, hv, hveq⟩ := hw
        have hwid : w.id = v.id := by
          by_cases hvid : v.id = u.id <;> simp [← hveq, hvid]
        exact hwid ▸ hid v hv

theorem storeInv_delete (s : Store) (un : String) (h : StoreInv s) :
    StoreInv (delete_user s un).2 := by
  obtain ⟨hp, hid⟩ := h
  cases hf : findByUsername s un with
  | none => simpa [delete_user, hf] using ⟨hp, hid⟩
  | some u =>
    have hpost : (delete_user s un).2 =
        { users := s.users.filter (fun v => v.id != u.id), nextId := s.nextId } := by
      simp [delete_user, hf]
    rw [hpost]
    constructor
    · exact List.Pairwise.sublist (List.filter_sublist _) hp
    · intro w hw
      exact hid w (List.mem_of_mem_filter hw)

theorem storeInv_step (s : Store) (c : Cmd) (h : StoreInv s) : StoreInv (step s c) := by
  cases c with
  | reinit => exact storeInv_seed
  | create un em pw => exact storeInv_create s un em pw h
  | changeEmail un em => exact storeInv_change s un em h
  | delete un => exact storeInv_delete s un h

theorem storeInv_runFrom (cs : List Cmd) : ∀ s : Store, StoreInv s → StoreInv (runFrom s cs) := by
  induction cs with
  | nil => intro s h; exact h
  | cons c cs ih =>
    intro s h
    exact ih (step s c) (storeInv_step s c h)

theorem storeInv_run (cs : List Cmd) : StoreInv (run cs) :=
  storeInv_runFrom cs seedStore storeInv_seed

theorem findByUsername_eq_none {s : Store} {un : String}
    (h : ∀ u ∈ s.users, u.username ≠ un) : findByUsername s un = none := by
  apply List.find?_eq_none.mpr
  intro u hu
  simp [h u hu]

/-- Claim C1: creating a user whose username or email equals that of an
existing record prints the generic already-taken message, the attempted
write is rolled back, and the store — hence the colliding record and the
total record count — is exactly unchanged. -/
theorem create_user_duplicate_rejected (s : Store) (un em pw : String)
    (h : ∃ u ∈ s.users, u.username = un ∨ u.email = em) :
    (create_user s un em pw).1 = OpOut.message "Username or email already taken!" ∧
    (create_user s un em pw).2 = s ∧
    (create_user s un em pw).2.users.length = s.users.length := by
  have hc : insertConflict s un em = true := by
    obtain ⟨u, hu, hcase⟩ := h
    apply List.any_eq_true.mpr
    refine ⟨u, hu, ?_⟩
    rcases hcase with h1 | h1 <;> simp [h1]
  simp [create_user, hc]

/-- Claim C1 witness: re-creating the seeded username `bob` with a fresh
email is rejected and mutates nothing. -/
theorem create_user_duplicate_rejected_app :
    (create_user seedStore "bob" "fresh@mail.com" "pw").1 =
      OpOut.message "Username or email already taken!" ∧
    (create_user seedStore "bob" "fresh@mail.com" "pw").2 = seedStore ∧
    (create_user seedStore "bob" "fresh@mail.com" "pw").2.users.length =
      seedStore.users.length :=
  create_user_duplicate_rejected seedStore "bob" "fresh@mail.com" "pw"
    ⟨⟨1, "bob", "bob@mail.com", "bobpass"⟩, by decide, Or.inl rfl⟩

/-- Claim C2 counterexample: from an initialized store, create-user with
empty username and empty email succeeds, so a reachable store contains a
record whose username and email are empty — non-emptiness at creation is
not enforced by any operation. -/
theorem run_create_empty_fields :
    ∃ u ∈ (run [Cmd.create "" "" "pw"]).users, u.username = "" ∧ u.email = "" := by
  decide

/-- Claim C2 (amended): in every store reachable from an initialized store
by any sequence of initialize, create-user, change-email and delete-user,
usernames are pairwise distinct and emails are pairwise distinct; the
non-emptiness-at-creation part of the original claim is dropped, since
records with empty username and email are creatable. -/
theorem reachable_username_email_unique (cs : List Cmd) :
    ∀ a ∈ (run cs).users, ∀ b ∈ (run cs).users,
      a ≠ b → a.username ≠ b.username ∧ a.email ≠ b.email := by
  intro a ha b hb hab
  have h := (storeInv_run cs).1.forall recDistinct_symm ha hb hab
  exact ⟨h.2.1, h.2.2⟩

/-- Claim C2 witness: after creating `alice` in the initialized store, the
two distinct records indeed differ in username and in email. -/
theorem reachable_username_email_unique_app :
    (⟨1, "bob", "bob@mail.com", "bobpass"⟩ : UserRec).username ≠
      (⟨2, "alice", "a@x.com", "p"⟩ : UserRec).username ∧
    (⟨1, "bob", "bob@mail.com", "bobpass"⟩ : UserRec).email ≠
      (⟨2, "alice", "a@x.com", "p"⟩ : UserRec).email :=
  reachable_username_email_unique [Cmd.create "alice" "a@x.com" "p"]
    ⟨1, "bob", "bob@mail.com", "bobpass"⟩ (by decide)
    ⟨2, "alice", "a@x.com", "p"⟩ (by decide) (by decide)

/-- Claim C3: for a username matching no record, get-user, change-email
and delete-user each print their not-found message, raise nothing, and
leave the store exactly unchanged. -/
theorem absent_username_ops_report_not_found (s : Store) (un em : String)
    (h : ∀ u ∈ s.users, u.username ≠ un) :
    get_user s un = (OpOut.message (un ++ " not found!"), s) ∧
    change_email s un em = (OpOut.message (un ++ " not found! Unable to update email."), s) ∧
    delete_user s un = (OpOut.message (un ++ " not found! Unable to delete user."), s) := by
  have hf : findByUsername s un = none := findByUsername_eq_none h
  refine ⟨?_, ?_, ?_⟩ <;> simp [get_user, change_email, delete_user, hf]

/-- Claim C3 witness: the username `alice` is absent from the seeded
store, and all three lookups report not-found without mutating. -/
theorem absent_username_ops_report_not_found_app :
    get_user seedStore "alice" =
      (OpOut.message ("alice" ++ " not found!"), seedStore) ∧
    change_email seedStore "alice" "x@y.com" =
      (OpOut.message ("alice" ++ " not found! Unable to update email."), seedStore) ∧
    delete_user seedStore "alice" =
      (OpOut.message ("alice" ++ " not found! Unable to delete user."), seedStore) :=
  absent_username_ops_report_not_found seedStore "alice" "x@y.com" (by decide)

/-- Claim C4: change-email on an existing user performs no uniqueness
re-check at the access layer: when a different record already holds the
new email, the engine's uniqueness violation propagates uncaught (the
output is the uncaught exception, not a handled message), and the rolled
back store is unchanged. -/
theorem change_email_conflict_uncaught (s : Store) (un em : String) (u v : UserRec)
    (hf : findByUsername s un = some u) (hv : v ∈ s.users)
    (hvid : v.id ≠ u.id) (hvem : v.email = em) :
    (change_email s un em).1 = OpOut.uncaughtIntegrityError ∧
    (change_email s un em).2 = s := by
  have hc : updateEmailConflict s u.id em = true := by
    apply List.any_eq_true.mpr
    exact ⟨v, hv, by simp [hvid, hvem]⟩
  simp [change_email, hf, hc]

/-- Claim C4 witness: with `bob` and `alice` present, changing the email
of `bob` to the email of `alice` surfaces the uncaught engine violation. -/
theorem change_email_conflict_uncaught_app :
    (change_email (run [Cmd.create "alice" "alice@mail.com" "p"])
        "bob" "alice@mail.com").1 = OpOut.uncaughtIntegrityError ∧
    (change_email (run [Cmd.create "alice" "alice@mail.com" "p"])
        "bob" "alice@mail.com").2 = run [Cmd.create "alice" "alice@mail.com" "p"] :=
  change_email_conflict_uncaught (run [Cmd.create "alice" "alice@mail.com" "p"])
    "bob" "alice@mail.com"
    ⟨1, "bob", "bob@mail.com", "bobpass"⟩ ⟨2, "alice", "alice@mail.com", "p"⟩
    (by decide) (by decide) (by decide) (by decide)

/-- Claim C5 counterexample: with `bob` and `carol` present, change-email
of the existing user `bob` to the email held by `carol` does not set
`bob`'s email field to the new email — the write is rolled back and the
uncaught violation surfaces instead. -/
theorem change_email_collision_not_applied :
    (change_email (run [Cmd.create "carol" "carol@mail.com" "cp"])
        "bob" "carol@mail.com").2.users.map (fun u => u.email) =
      ["bob@mail.com", "carol@mail.com"] ∧
    (change_email (run [Cmd.create "carol" "carol@mail.com" "cp"])
        "bob" "carol@mail.com").1 = OpOut.uncaughtIntegrityError := by
  decide

/-- Claim C5 (amended): for every well-formed store, every existing user
and every new email not already held by a different record, change-email
sets exactly that user's email to the new email, prints the confirmation,
and leaves the user's username, password and id and every other record
(and the engine's next id) unchanged. -/
theorem change_email_updates_only_email (s : Store) (un em : String) (u : UserRec)
    (hInv : StoreInv s) (hf : findByUsername s un = some u)
    (hnc : ∀ v ∈ s.users, v.id ≠ u.id → v.email ≠ em) :
    (change_email s un em).1 =
      OpOut.message ("Updated " ++ u.username ++ "\x27s email to " ++ em) ∧
    (change_email s un em).2.users =
      s.users.map (fun v => if v.id = u.id then { v with email := em } else v) ∧
    (change_email s un em).2.nextId = s.nextId := by
  have hc : updateEmailConflict s u.id em = false := by
    apply List.any_eq_false.mpr
    intro v hv
    by_cases hvid : v.id = u.id
    · simp [hvid]
    · simp [hvid, hnc v hv hvid]
  refine ⟨?_, ?_, ?_⟩
  · simp [change_email, hf, hc]
  · have hpost : (change_email s un em).2.users =
        s.users.map (fun v => if v.id = u.id then { u with email := em } else v) := by
      simp [change_email, hf, hc]
    rw [hpost]
    apply List.map_congr_left
    intro a ha
    by_cases haid : a.id = u.id
    · have hau : a = u := eq_of_mem_of_id_eq hInv.1 ha (List.mem_of_find?_eq_some hf) haid
      rw [if_pos haid, if_pos haid, hau]
    · rw [if_neg haid, if_neg haid]
  · simp [change_email, hf, hc]

/-- Claim C5 witness: changing `bob`'s email in the seeded store to a
fresh address rewrites only the email field of the single record. -/
theorem change_email_updates_only_email_app :
    (change_email seedStore "bob" "b2@mail.com").1 =
      OpOut.message ("Updated " ++ "bob" ++ "\x27s email to " ++ "b2@mail.com") ∧
    (change_email seedStore "bob" "b2@mail.com").2.users =
      seedStore.users.map
        (fun v => if v.id = 1 then { v with email := "b2@mail.com" } else v) ∧
    (change_email seedStore "bob" "b2@mail.com").2.nextId = seedStore.nextId :=
  change_email_updates_only_email seedStore "bob" "b2@mail.com"
    ⟨1, "bob", "bob@mail.com", "bobpass"⟩ (by decide) (by decide) (by decide)

/-- Claim C6: search-user selects exactly the records whose username or
email contains the query as a contiguous substring (and no others); when
nothing matches it prints a no-match message naming the query rather than
raising an error, and otherwise it prints exactly the matching records. -/
theorem search_user_exact_matches (s : Store) (q : String) :
    (∀ u, u ∈ search_matches s q ↔
        u ∈ s.users ∧ (q.data <:+: u.username.data ∨ q.data <:+: u.email.data)) ∧
    (search_matches s q = [] →
      (search_user s q).1 = OpOut.message ("No users found matching \x27" ++ q ++ "\x27.")) ∧
    (search_matches s q ≠ [] → (search_user s q).1 = OpOut.users (search_matches s q)) := by
  refine ⟨?_, ?_, ?_⟩
  · intro u
    simp [search_matches, List.mem_filter, strContains]
  · intro h
    simp [search_user, h]
  · intro h
    have hne : (search_matches s q).isEmpty = false := List.isEmpty_eq_false.mpr h
    simp [search_user, hne]

/-- Claim C6 witness: in the seeded store no field contains `zzz`, so the
match set is empty and the no-match message is printed. -/
theorem search_user_exact_matches_app :
    (search_user seedStore "zzz").1 =
      OpOut.message ("No users found matching \x27" ++ "zzz" ++ "\x27.") :=
  (search_user_exact_matches seedStore "zzz").2.1 (by decide)

/-- Claim C7: for nonnegative limit and offset, list-users returns at most
`limit` records, the i-th returned record being the (offset+i)-th record
of the store in natural storage order; with the argument defaults
limit = 10, offset = 0, a store holding 3 records is returned whole.
Negative parameters are accepted unvalidated by the command; the spec
leaves the engine's behavior on them open, so the theorem is restricted
to the nonnegative domain. -/
theorem list_users_pagination (s : Store) (l o : Int) (_hl : 0 ≤ l) (_ho : 0 ≤ o) :
    (list_page s l o).length ≤ l.toNat ∧
    (∀ i, (hi : i < (list_page s l o).length) →
        ∃ hj : o.toNat + i < s.users.length,
          (list_page s l o).get ⟨i, hi⟩ = s.users.get ⟨o.toNat + i, hj⟩) ∧
    (s.users.length = 3 → list_page s 10 0 = s.users) := by
  refine ⟨List.length_take_le _ _, ?_, ?_⟩
  · intro i hi
    have hi2 : i < (s.users.drop o.toNat).length := by
      have := hi
      simp only [list_page, List.length_take] at this
      exact lt_of_lt_of_le this (min_le_right _ _)
    have hj : o.toNat + i < s.users.length := by
      rw [List.length_drop] at hi2
      omega
    refine ⟨hj, ?_⟩
    simp [list_page, List.get_eq_getElem, List.getElem_take, List.getElem_drop]
  · intro h3
    show (s.users.drop (Int.toNat 0)).take (Int.toNat 10) = s.users
    rw [Int.toNat_zero, List.drop_zero]
    exact List.take_of_length_le (by omega)

/-- Claim C7 witness: a store with 3 records (`bob`, `alice`, `carol`) is
returned whole by list-users with the default parameters 10 and 0. -/
theorem list_users_pagination_app :
    list_page (run [Cmd.create "alice" "a@x.com" "p", Cmd.create "carol" "c@x.com" "p"]) 10 0 =
      (run [Cmd.create "alice" "a@x.com" "p", Cmd.create "carol" "c@x.com" "p"]).users :=
  (list_users_pagination
      (run [Cmd.create "alice" "a@x.com" "p", Cmd.create "carol" "c@x.com" "p"]) 10 0
      (by decide) (by decide)).2.2 (by decide)

/-- Claim C8: creating a user whose username and email appear in no
existing record succeeds, printing the new record, and a subsequent
get-user by that username on the resulting store returns exactly the
newly created record. -/
theorem create_then_get_user (s : Store) (un em pw : String)
    (hu : ∀ v ∈ s.users, v.username ≠ un) (he : ∀ v ∈ s.users, v.email ≠ em) :
    (create_user s un em pw).1 = OpOut.user ⟨s.nextId, un, em, pw⟩ ∧
    (get_user (create_user s un em pw).2 un).1 = OpOut.user ⟨s.nextId, un, em, pw⟩ := by
  have hc : insertConflict s un em = false := by
    apply List.any_eq_false.mpr
    intro v hv
    simp [hu v hv, he v hv]
  have hfind : findByUsername (create_user s un em pw).2 un =
      some ⟨s.nextId, un, em, pw⟩ := by
    have hpost : (create_user s un em pw).2.users =
        s.users ++ [⟨s.nextId, un, em, pw⟩] := by
      simp [create_user, hc]
    unfold findByUsername
    rw [hpost, List.find?_append]
    have h1 : s.users.find? (fun u => u.username == un) = none := by
      apply List.find?_eq_none.mpr
      intro v hv
      simp [hu v hv]
    simp [h1]
  constructor
  · simp [create_user, hc]
  · simp [get_user, hfind]

/-- Claim C8 witness: creating `alice` in the seeded store succeeds and
the new record is then retrievable by username. -/
theorem create_then_get_user_app :
    (create_user seedStore "alice" "a@x.com" "ap").1 =
      OpOut.user ⟨2, "alice", "a@x.com", "ap"⟩ ∧
    (get_user (create_user seedStore "alice" "a@x.com" "ap").2 "alice").1 =
      OpOut.user ⟨2, "alice", "a@x.com", "ap"⟩ :=
  create_then_get_user seedStore "alice" "a@x.com" "ap" (by decide) (by decide)

/-- Claim C9: whenever create-user succeeds (prints a created record),
the stored record's password is exactly the password argument — no
hashing or other transformation — and the record is in the store. -/
theorem create_user_password_verbatim (s : Store) (un em pw : String) (r : UserRec)
    (h : (create_user s un em pw).1 = OpOut.user r) :
    r.password = pw ∧ r ∈ (create_user s un em pw).2.users := by
  cases hc : insertConflict s un em with
  | true => simp [create_user, hc] at h
  | false =>
    have hr : r = ⟨s.nextId, un, em, pw⟩ := by
      have := h
      simp [create_user, hc] at this
      exact this.symm
    subst hr
    exact ⟨rfl, by simp [create_user, hc]⟩

/-- Claim C9 witness: creating `alice` with password `secret` stores the
string `secret` verbatim in the created record. -/
theorem create_user_password_verbatim_app :
    (⟨2, "alice", "a@x.com", "secret"⟩ : UserRec).password = "secret" ∧
    (⟨2, "alice", "a@x.com", "secret"⟩ : UserRec) ∈
      (create_user seedStore "alice" "a@x.com" "secret").2.users :=
  create_user_password_verbatim seedStore "alice" "a@x.com" "secret"
    ⟨2, "alice", "a@x.com", "secret"⟩ (by decide)

/-- Claim C10: the read-only commands get-user, get-all-users,
search-user and list-users leave the store exactly unchanged for every
input and every store state: none of them inserts, updates or deletes. -/
theorem read_commands_no_mutation (s : Store) (un q : String) (l o : Int) :
    (get_user s un).2 = s ∧ (get_all_users s).2 = s ∧
    (search_user s q).2 = s ∧ (list_users s l o).2 = s := by
  refine ⟨?_, ?_, ?_, ?_⟩
  · cases hf : findByUsername s un <;> simp [get_user, hf]
  · cases h : s.users.isEmpty <;> simp [get_all_users, h]
  · cases h : (search_matches s q).isEmpty <;> simp [search_user, h]
  · cases h : (list_page s l o).isEmpty <;> simp [list_users, h]
